import Mathlib

/-!
Verification development for the guardiansScheduler repository.

The embedded code is src/scheduler.py (the preference-resolution and
decision-variable-enumeration core) and src/src/main.py (the refactored entry
point).  Python dicts become association lists with insertion-order-preserving
update, Python lists become Lean lists, datetime.date objects become a record
holding the day number and the weekday index, exceptions become an error sum
type returned through Except, and the log.warn diagnostics that the code emits
become an explicit list of Warning values.
-/

namespace Guardians

/-- Equality of Except values is decidable when it is on both components. -/
instance exceptDecEq {ε α : Type} [DecidableEq ε] [DecidableEq α] : DecidableEq (Except ε α)
  | .error e, .error e' =>
    if h : e = e' then .isTrue (by rw [h]) else .isFalse (fun hh => h (by injection hh))
  | .error _, .ok _ => .isFalse (fun hh => Except.noConfusion hh)
  | .ok _, .error _ => .isFalse (fun hh => Except.noConfusion hh)
  | .ok a, .ok a' =>
    if h : a = a' then .isTrue (by rw [h]) else .isFalse (fun hh => h (by injection hh))

/-- Python dict lookup, returning the value stored under the first matching
key, if any.  Models reading d of k on the dicts built by the embedded code. -/
def dictGet {κ α : Type} [DecidableEq κ] : List (κ × α) → κ → Option α
  | [], _ => none
  | (k', v) :: rest, k => if k' = k then some v else dictGet rest k

/-- Python dict assignment: replaces the value in place when the key is
already present, otherwise appends the new pair.  Python dicts preserve
insertion order, which this models. -/
def dictInsert {κ α : Type} [DecidableEq κ] : List (κ × α) → κ → α → List (κ × α)
  | [], k, v => [(k, v)]
  | (k', v') :: rest, k, v =>
    if k' = k then (k, v) :: rest else (k', v') :: dictInsert rest k v

/-- The WEEK_DAY dict of scheduler.py (lines 25 to 33): weekday name to the
int used by datetime, Monday is 0. -/
def WEEK_DAY_TABLE : List (String × Fin 7) :=
  [("Monday", 0), ("Tuesday", 1), ("Wednesday", 2), ("Thursday", 3),
   ("Friday", 4), ("Saturday", 5), ("Sunday", 6)]

/-- The lookup WEEK_DAY of a shift name.  In Python an unknown name raises
KeyError; here the lookup returns none and the caller raises. -/
def WEEK_DAY (s : String) : Option (Fin 7) := dictGet WEEK_DAY_TABLE s

/-- scheduler.py line 41: the suffix identifying shift BoolVars. -/
def SHIFT : Char := 's'

/-- scheduler.py line 42: the suffix identifying consultation BoolVars. -/
def CONSULT : Char := 'c'

/-- The pair of 7-entry bucket arrays shifts1ByWeekDay and shifts2ByWeekDay is
modelled as functions from the weekday index to the doctor-id list. -/
abbrev Buckets : Type := Fin 7 → List Nat

/-- The two empty 7-entry lists built at scheduler.py lines 215 and 216. -/
def emptyBuckets : Buckets := fun _ => []

/-- Appending a doctor id to the bucket of one weekday, as in
shifts1ByWeekDay of weekday dot append of docId. -/
def bucketAdd (b : Buckets) (w : Fin 7) (docId : Nat) : Buckets :=
  fun i => if i = w then b i ++ [docId] else b i

/-- A datetime.date as used by getShiftPreferences: only the day-of-month
number (date.day) and the weekday index (date.weekday()) are read. -/
structure Date where
  day : Nat
  weekday : Fin 7
deriving DecidableEq

/-- One element of the shiftConfs argument of getShiftPreferences, restricted
to the two dict keys selected by the keys argument: the doctorId together
with the two lists of weekday names found under keys[0] and keys[1].  The
Python function is generic over the key pair; this record is that pair of
projections. -/
structure ShiftConf2 where
  doctorId : Nat
  key1Shifts : List String
  key2Shifts : List String
deriving DecidableEq

/-- One element of the dayConfs argument of getShiftPreferences, restricted to
the two dict keys selected by the keys argument: the two override lists of
doctor ids for that day. -/
structure DayConf2 where
  key1Ids : List Nat
  key2Ids : List Nat
deriving DecidableEq

/-- The diagnostics the code emits with log.warn.  Only the weekday-level
conflict warning (scheduler.py lines 227 to 232) can complete; the day-level
warning crashes while formatting (see SchedErr.dayConflictFormatKeyError). -/
inductive Warning where
  | weekdayConflict (ids : List Nat) (weekday : Fin 7)
deriving DecidableEq

/-- The exceptions the embedded code can raise.
unknownWeekday: the KeyError raised by the WEEK_DAY dict lookup on an
unrecognized weekday name (scheduler.py lines 220 and 223);
dayConflictFormatKeyError: the KeyError raised by str.format at scheduler.py
lines 252 to 254, where the day-level conflict warning uses the named
placeholder named intersection but passes only positional arguments, so the
warning crashes whenever the two override lists of a day intersect;
calendarMismatch: the ValueError raised by the calendar-shape checks at
scheduler.py lines 314 to 328;
illegalMonth: the IllegalMonthError the calendar library raises when the
month is not between 1 and 12;
typeError: the TypeError raised by calling a function with the wrong number
of positional arguments. -/
inductive SchedErr where
  | unknownWeekday (name : String)
  | dayConflictFormatKeyError (day : Nat)
  | calendarMismatch
  | illegalMonth
  | typeError
deriving DecidableEq

/-- The intersection of two id lists computed as Python set of a, intersected
with set of b: the members of a (kept once each) that also belong to b. -/
def interList (a b : List Nat) : List Nat :=
  a.dedup.filter fun x => decide (x ∈ b)

/-- The union of two id lists computed as Python list of set of a union set
of b: every member of either list, kept once each. -/
def unionList (a b : List Nat) : List Nat := (a ++ b).dedup

/-- The return value of getShiftPreferences: the shiftPreferences dict mapping
each day number to the pair of combined id lists. -/
abbrev Table : Type := List (Nat × (List Nat × List Nat))

/-- The inner loops at scheduler.py lines 219 to 224: look every shift name of
one doctor up in WEEK_DAY and append the doctor id to that weekday's bucket;
an unknown name raises the KeyError immediately. -/
def addShifts (docId : Nat) : List String → Buckets → Except SchedErr Buckets
  | [], b => .ok b
  | s :: rest, b =>
    match WEEK_DAY s with
    | none => .error (.unknownWeekday s)
    | some w => addShifts docId rest (bucketAdd b w docId)

/-- The aggregation loop at scheduler.py lines 217 to 224: for each shift
configuration, fold its key1 shifts into the first bucket array and then its
key2 shifts into the second. -/
def aggregateConfs : List ShiftConf2 → Buckets → Buckets → Except SchedErr (Buckets × Buckets)
  | [], b1, b2 => .ok (b1, b2)
  | sc :: rest, b1, b2 =>
    match addShifts sc.doctorId sc.key1Shifts b1 with
    | .error e => .error e
    | .ok b1' =>
      match addShifts sc.doctorId sc.key2Shifts b2 with
      | .error e => .error e
      | .ok b2' => aggregateConfs rest b1' b2'

/-- The weekday-level conflict check at scheduler.py lines 227 to 232: for
each weekday index 0 to 6 in order, if the two buckets intersect, a warning
naming the intersected ids and the weekday is emitted. -/
def weekdayWarnings (b1 b2 : Buckets) : List Warning :=
  (List.finRange 7).filterMap fun i =>
    if interList (b1 i) (b2 i) = [] then none
    else some (.weekdayConflict (interList (b1 i) (b2 i)) i)

/-- The per-day resolution at scheduler.py lines 256 to 275: filter each
weekday bucket by removing ids present in the opposite high-priority override
list, then union the filtered bucket with the same-category override list. -/
def resolveOne (b1 b2 : Buckets) (date : Date) (dc : DayConf2) : List Nat × List Nat :=
  let f1 := (b1 date.weekday).filter fun d => decide (d ∉ dc.key2Ids)
  let f2 := (b2 date.weekday).filter fun d => decide (d ∉ dc.key1Ids)
  (unionList f1 dc.key1Ids, unionList f2 dc.key2Ids)

/-- The day loop at scheduler.py lines 235 to 275, over zip of daysOfMonth and
dayConfs.  For each day it first computes the intersection of the two
override lists (lines 250 to 254); when that intersection is non-empty the
str.format call of the warning raises KeyError, so the loop aborts.
Otherwise the resolved pair is stored under the day number. -/
def resolveDays (b1 b2 : Buckets) : List (Date × DayConf2) → Table → Except SchedErr Table
  | [], acc => .ok acc
  | (date, dc) :: rest, acc =>
    if interList dc.key1Ids dc.key2Ids ≠ [] then
      .error (.dayConflictFormatKeyError date.day)
    else
      resolveDays b1 b2 rest (dictInsert acc date.day (resolveOne b1 b2 date dc))

/-- getShiftPreferences (scheduler.py lines 59 to 279), already specialized to
the projections of the chosen key pair: aggregate the recurring preferences
into weekday buckets (may raise on an unknown weekday name), emit the
weekday-level conflict warnings, then resolve each day of the month in order.
Returns the emitted warnings together with the shiftPreferences dict. -/
def getShiftPreferences (shiftConfs : List ShiftConf2) (dayConfs : List DayConf2)
    (daysOfMonth : List Date) : Except SchedErr (List Warning × Table) :=
  match aggregateConfs shiftConfs emptyBuckets emptyBuckets with
  | .error e => .error e
  | .ok (b1, b2) =>
    match resolveDays b1 b2 (daysOfMonth.zip dayConfs) [] with
    | .error e => .error e
    | .ok t => .ok (weekdayWarnings b1 b2, t)

/-- One element of the doctors list read from doctors.json (spec section 6:
a record with an id and a doesConsultations flag).  schedule reads this list
and logs it but never uses it. -/
structure Doctor where
  id : Nat
  doesConsultations : Bool
deriving DecidableEq

/-- One element of the shiftConfs list read from shiftConfs.json: the doctor
id, the doesConsultations flag read by the enumeration loop at scheduler.py
line 365, and the four weekday-name lists read through the key pairs. -/
structure ShiftConf where
  doctorId : Nat
  doesConsultations : Bool
  wantedShifts : List String
  unwantedShifts : List String
  mandatoryShifts : List String
  unavailableShifts : List String
deriving DecidableEq

/-- One element of dayConfigurations from calendar.json: the day number, the
isWorkingDay flag, and the four per-day override lists of doctor ids. -/
structure DayConf where
  day : Nat
  isWorkingDay : Bool
  wantedShifts : List Nat
  unwantedShifts : List Nat
  mandatoryShifts : List Nat
  unavailableShifts : List Nat
deriving DecidableEq

/-- The calendar.json record: year, month and the day configurations. -/
structure CalendarInput where
  year : Nat
  month : Nat
  dayConfigurations : List DayConf
deriving DecidableEq

/-- The projection of a shift configuration to the wantedShifts and
unwantedShifts keys, the key pair of the first getShiftPreferences call
(scheduler.py lines 330 and 331). -/
def wantedPair (sc : ShiftConf) : ShiftConf2 :=
  ⟨sc.doctorId, sc.wantedShifts, sc.unwantedShifts⟩

/-- The projection of a shift configuration to the mandatoryShifts and
unavailableShifts keys, the key pair of the second getShiftPreferences call
(scheduler.py lines 334 to 336). -/
def mandatoryPair (sc : ShiftConf) : ShiftConf2 :=
  ⟨sc.doctorId, sc.mandatoryShifts, sc.unavailableShifts⟩

/-- The projection of a day configuration to the wantedShifts and
unwantedShifts override lists. -/
def wantedDayPair (dc : DayConf) : DayConf2 := ⟨dc.wantedShifts, dc.unwantedShifts⟩

/-- The projection of a day configuration to the mandatoryShifts and
unavailableShifts override lists. -/
def mandatoryDayPair (dc : DayConf) : DayConf2 := ⟨dc.mandatoryShifts, dc.unavailableShifts⟩

/-- The Gregorian leap-year rule used by the Python calendar library. -/
def isLeap (y : Nat) : Bool := (y % 4 = 0 && y % 100 ≠ 0) || y % 400 = 0

/-- The number of days of a month of the Gregorian calendar, for months 1 to
12 (the Python calendar library raises IllegalMonthError outside that range,
which schedule models with the illegalMonth guard). -/
def daysInMonth (y m : Nat) : Nat :=
  if m = 2 then (if isLeap y then 29 else 28)
  else if m = 4 ∨ m = 6 ∨ m = 9 ∨ m = 11 then 30
  else 31

/-- The number of days of the proleptic Gregorian calendar strictly before
January 1 of year y, as counted by Python datetime (whose day 1 is January 1
of year 1). -/
def daysBeforeYear (y : Nat) : Nat :=
  365 * (y - 1) + (y - 1) / 4 - (y - 1) / 100 + (y - 1) / 400

/-- The number of days of year y strictly before month m. -/
def daysBeforeMonth (y m : Nat) : Nat :=
  (((List.range' 1 (m - 1))).map fun k => daysInMonth y k).sum

/-- The weekday index of a date as Python date.weekday() returns it: Monday
is 0.  January 1 of year 1 is a Monday in the proleptic Gregorian calendar. -/
def weekdayOf (y m d : Nat) : Fin 7 :=
  ⟨(daysBeforeYear y + daysBeforeMonth y m + d - 1) % 7, Nat.mod_lt _ (by decide)⟩

/-- The daysOfMonth list built at scheduler.py lines 309 and 310: the dates of
the month in ascending order, each carrying its day number and weekday. -/
def monthDates (y m : Nat) : List Date :=
  (List.range' 1 (daysInMonth y m)).map fun d => ⟨d, weekdayOf y m d⟩

/-- One step of the stable insertion into an ascending-by-day list. -/
def insertSorted (x : DayConf) : List DayConf → List DayConf
  | [] => [x]
  | y :: ys => if y.day ≤ x.day then y :: insertSorted x ys else x :: y :: ys

/-- The Python sorted call at scheduler.py lines 298 and 299: the day
configurations in ascending day order; a stable sort. -/
def sortByDay (l : List DayConf) : List DayConf :=
  l.foldl (fun acc x => insertSorted x acc) []

/-- The decimal digit characters of a natural number, most significant first,
as Python str produces for a nonnegative int. -/
def natChars (n : Nat) : List Char :=
  if _h : n < 10 then [Nat.digitChar n]
  else natChars (n / 10) ++ [Nat.digitChar (n % 10)]
decreasing_by exact Nat.div_lt_self (by omega) (by omega)

/-- The literal characters shift underscore doc that open every BoolVar name
built at scheduler.py lines 363 and 367. -/
def shiftDocTag : List Char := ['s', 'h', 'i', 'f', 't', '_', 'd', 'o', 'c']

/-- The literal characters d a y that follow the doctor id in the name. -/
def dayTag : List Char := ['d', 'a', 'y']

/-- The BoolVar name built by the Python f-string at scheduler.py lines 363
and 367: the tag shift doc, then the doctor id in decimal, then underscore
day, then the day number in decimal, then an underscore and the kind suffix
(SHIFT or CONSULT). -/
def varName (docId dayNum : Nat) (kind : Char) : List Char :=
  shiftDocTag ++ (natChars docId ++ (['_'] ++ (dayTag ++ (natChars dayNum ++ (['_'] ++ [kind])))))

/-- The doctorVars list built at scheduler.py lines 361 to 368: first the
shift variable, then, only when the doctor doesConsultations, the
consultation variable. -/
def varsFor (sc : ShiftConf) (dc : DayConf) : List (List Char) :=
  [varName sc.doctorId dc.day SHIFT]
    ++ (if sc.doesConsultations then [varName sc.doctorId dc.day CONSULT] else [])

/-- The shiftVars dict built at scheduler.py lines 355 to 369: for every shift
configuration and every working day, the entry keyed by the doctor id and the
day number holds that doctor's variable list for the day. -/
def enumerateVars (shiftConfs : List ShiftConf) (dayConfs : List DayConf) :
    List ((Nat × Nat) × List (List Char)) :=
  shiftConfs.foldl
    (fun m sc =>
      dayConfs.foldl
        (fun m' dc =>
          if dc.isWorkingDay then dictInsert m' (sc.doctorId, dc.day) (varsFor sc dc) else m')
        m)
    []

/-- The names of the BoolVars in the order the NewBoolVar calls of the loop at
scheduler.py lines 355 to 369 create them inside the CpModel (the model keeps
every created variable even when a later dict assignment overwrites an
entry). -/
def createdVars (shiftConfs : List ShiftConf) (dayConfs : List DayConf) : List (List Char) :=
  shiftConfs.flatMap fun sc =>
    dayConfs.flatMap fun dc => if dc.isWorkingDay then varsFor sc dc else []

/-- The values schedule has computed when it reaches the end of its body: the
two resolved tables with their warnings, and the decision-variable dict. -/
structure ScheduleOutput where
  requests : List Warning × Table
  required : List Warning × Table
  shiftVars : List ((Nat × Nat) × List (List Char))
deriving DecidableEq

/-- schedule (scheduler.py lines 281 to 370), with the three parsed input
records passed explicitly in place of the file reads (file parsing is an
external collaborator).  The doctors record is read and logged by the Python
code but never used afterwards, so it is an unused parameter here.  The steps
in order: reject an out-of-range month (the calendar library would raise
IllegalMonthError), sort the day configurations by day number, build the
dates of the month, raise the calendar-shape ValueError when the count or the
day numbers disagree, resolve the wanted and unwanted pair, resolve the
mandatory and unavailable pair, and enumerate the decision variables. -/
def schedule (doctors : List Doctor) (shiftConfs : List ShiftConf) (cal : CalendarInput) :
    Except SchedErr ScheduleOutput :=
  if cal.month < 1 ∨ 12 < cal.month then .error .illegalMonth
  else if (monthDates cal.year cal.month).length ≠ (sortByDay cal.dayConfigurations).length then
    .error .calendarMismatch
  else if ((monthDates cal.year cal.month).zip (sortByDay cal.dayConfigurations)).any
      (fun p => p.1.day != p.2.day) then
    .error .calendarMismatch
  else
    match getShiftPreferences (shiftConfs.map wantedPair)
        ((sortByDay cal.dayConfigurations).map wantedDayPair)
        (monthDates cal.year cal.month) with
    | .error e => .error e
    | .ok requests =>
      match getShiftPreferences (shiftConfs.map mandatoryPair)
          ((sortByDay cal.dayConfigurations).map mandatoryDayPair)
          (monthDates cal.year cal.month) with
      | .error e => .error e
      | .ok required =>
        .ok ⟨requests, required, enumerateVars shiftConfs (sortByDay cal.dayConfigurations)⟩

/-- A positional argument of the call scheduler.schedule of doctors,
shiftConfs and calendarDict at src/src/main.py line 34. -/
inductive MainArg where
  | doctorsArg (d : List Doctor)
  | shiftConfsArg (s : List ShiftConf)
  | calendarArg (c : CalendarInput)
deriving DecidableEq

/-- The Python call protocol for a function defined with zero parameters:
when any positional argument is supplied, the interpreter raises TypeError
before the function body runs. -/
def callZeroParamFn (args : List MainArg) : Except SchedErr Unit :=
  if args.length = 0 then .ok () else .error .typeError

/-- main (src/src/main.py lines 17 to 34) with the three parsed records
passed explicitly in place of the file reads: its last statement calls
scheduler.schedule, which src/scheduler.py line 281 defines with no
parameters, with three positional arguments. -/
def mainRun (doctors : List Doctor) (shiftConfs : List ShiftConf) (cal : CalendarInput) :
    Except SchedErr Unit :=
  callZeroParamFn [.doctorsArg doctors, .shiftConfsArg shiftConfs, .calendarArg cal]

/-- Concrete input: doctor 4 has a recurring Monday preference in the first
category. -/
def exC1Confs : List ShiftConf2 := [⟨4, [("Monday")], []⟩]

/-- Concrete input: a one-day month whose single day is a Monday. -/
def exC1Days : List Date := [⟨1, 0⟩]

/-- Concrete input: day 1 lists doctor 4 in its second-category override. -/
def exC1DayConfs : List DayConf2 := [⟨[], [4]⟩]

/-- The weekday buckets the aggregation computes for exC1Confs: doctor 4 in
the Monday bucket of the first category. -/
def exC1B1 : Buckets := bucketAdd emptyBuckets 0 4

/-- Concrete two-day input for the table-shape claim. -/
def exC7Days : List Date := [⟨1, 0⟩, ⟨2, 1⟩]

/-- Concrete day overrides for the table-shape claim. -/
def exC7DayConfs : List DayConf2 := [⟨[], []⟩, ⟨[3], []⟩]

/-- Concrete recurring preferences for the table-shape claim. -/
def exC7Confs : List ShiftConf2 := [⟨3, [("Tuesday")], []⟩]

/-- The resolved table getShiftPreferences returns on the exC7 input. -/
def exC7Table : Table := [(1, ([], [])), (2, ([3], []))]

/-- Concrete input: doctor 9 lists Tuesday in both recurring categories. -/
def exC6Confs : List ShiftConf2 := [⟨9, [("Tuesday")], [("Tuesday")]⟩]

/-- The bucket pair the aggregation computes for exC6Confs. -/
def exC6B : Buckets := bucketAdd emptyBuckets 1 9

/-- The per-doctor slice of the shiftVars dict: one entry per working day. -/
def varRow (dcs : List DayConf) (sc : ShiftConf) : List ((Nat × Nat) × List (List Char)) :=
  (dcs.filter fun dc => dc.isWorkingDay).map fun dc => ((sc.doctorId, dc.day), varsFor sc dc)

/-- Concrete input: two doctors, only the second doing consultations. -/
def exC2Scs : List ShiftConf := [⟨1, false, [], [], [], []⟩, ⟨2, true, [], [], [], []⟩]

/-- Concrete input: day 1 is a working day, day 2 is not. -/
def exC2Dcs : List DayConf := [⟨1, true, [], [], [], []⟩, ⟨2, false, [], [], [], []⟩]

/-- Concrete input: two doctors for the name-uniqueness claim. -/
def exC8Scs : List ShiftConf := [⟨1, true, [], [], [], []⟩, ⟨12, false, [], [], [], []⟩]

/-- Concrete input: two working days for the name-uniqueness claim. -/
def exC8Dcs : List DayConf := [⟨1, true, [], [], [], []⟩, ⟨23, true, [], [], [], []⟩]

/-- Concrete input: a calendar for February 2021 with no day configurations
at all, so the count check fails. -/
def exC3Cal : CalendarInput := ⟨2021, 2, []⟩

/-- Concrete input: 28 day configurations for February 2021, none a working
day, with no overrides. -/
def exC4DayConfs : List DayConf := (List.range' 1 28).map fun d => ⟨d, false, [], [], [], []⟩

/-- Concrete input: a valid February 2021 calendar with no overrides. -/
def exC4Cal : CalendarInput := ⟨2021, 2, exC4DayConfs⟩

/-- Concrete input: one shift configuration whose unavailableShifts list
holds the unrecognized weekday name Funday. -/
def exC4ShiftConfs : List ShiftConf := [⟨1, false, [], [], [], [("Funday")]⟩]

/-- Concrete input: a valid February 2021 calendar whose first day lists
doctor 2 in both its wantedShifts and unwantedShifts overrides. -/
def exC4CEDayConfs : List DayConf :=
  (List.range' 1 28).map fun d =>
    ⟨d, false, (if d = 1 then [2] else []), (if d = 1 then [2] else []), [], []⟩

/-- The calendar record wrapping exC4CEDayConfs. -/
def exC4CECal : CalendarInput := ⟨2021, 2, exC4CEDayConfs⟩

theorem dictInsert_fresh {κ α : Type} [DecidableEq κ] (l : List (κ × α)) (k : κ) (v : α)
    (h : k ∉ l.map Prod.fst) : dictInsert l k v = l ++ [(k, v)] := by
  induction l with
  | nil => rfl
  | cons p rest ih =>
    simp only [List.map_cons, List.mem_cons, not_or] at h
    rw [dictInsert]
    rw [if_neg (fun he => h.1 he.symm), ih h.2]
    rfl

theorem foldl_dictInsert_eq {κ α β : Type} [DecidableEq κ] (key : β → κ) (val : β → α)
    (l : List β) (acc : List (κ × α))
    (h : (acc.map Prod.fst ++ l.map key).Nodup) :
    l.foldl (fun a b => dictInsert a (key b) (val b)) acc
      = acc ++ l.map fun b => (key b, val b) := by
  induction l generalizing acc with
  | nil => simp
  | cons b rest ih =>
    have h1 : key b ∉ acc.map Prod.fst := by
      intro hmem
      rcases List.nodup_append.mp h with ⟨-, -, hdisj⟩
      exact hdisj hmem (by simp)
    rw [List.foldl_cons, dictInsert_fresh _ _ _ h1, ih]
    · simp
    · simpa using h

theorem dictGet_map_of_mem {κ α β : Type} [DecidableEq κ] (key : β → κ) (val : β → α)
    (l : List β) (b : β) (hb : b ∈ l) (hnd : (l.map key).Nodup) :
    dictGet (l.map fun x => (key x, val x)) (key b) = some (val b) := by
  induction l with
  | nil => cases hb
  | cons x rest ih =>
    simp only [List.map_cons, List.nodup_cons] at hnd
    rcases List.mem_cons.mp hb with rfl | hb'
    · simp [dictGet]
    · have hne : key x ≠ key b := fun he => hnd.1 (he ▸ List.mem_map_of_mem key hb')
      simpa [dictGet, hne] using ih hb' hnd.2

theorem nodup_zip_map_fst {α β γ : Type} (f : α → γ) (l1 : List α) (l2 : List β)
    (h : (l1.map f).Nodup) : ((l1.zip l2).map fun p => f p.1).Nodup := by
  induction l1 generalizing l2 with
  | nil => simp
  | cons a rest ih =>
    cases l2 with
    | nil => simp
    | cons b r2 =>
      simp only [List.map_cons, List.nodup_cons] at h
      simp only [List.zip_cons_cons, List.map_cons, List.nodup_cons]
      refine ⟨fun hmem => ?_, ih r2 h.2⟩
      rcases List.mem_map.mp hmem with ⟨p, hp, he⟩
      exact h.1 (he ▸ List.mem_map_of_mem f (List.of_mem_zip hp).1)

theorem resolveDays_ok_fold (b1 b2 : Buckets) (l : List (Date × DayConf2)) (acc t : Table)
    (h : resolveDays b1 b2 l acc = .ok t) :
    t = l.foldl (fun a p => dictInsert a p.1.day (resolveOne b1 b2 p.1 p.2)) acc := by
  induction l generalizing acc with
  | nil =>
    rw [resolveDays] at h
    injection h with h
    simp [h]
  | cons p rest ih =>
    obtain ⟨date, dc⟩ := p
    rw [resolveDays] at h
    by_cases hc : interList dc.key1Ids dc.key2Ids = []
    · rw [if_neg (by simpa using hc)] at h
      simpa using ih _ h
    · rw [if_pos (by simpa using hc)] at h
      cases h

theorem resolveDays_all_clear (b1 b2 : Buckets) (l : List (Date × DayConf2)) (acc : Table)
    (h : ∀ p ∈ l, interList p.2.key1Ids p.2.key2Ids = []) :
    resolveDays b1 b2 l acc
      = .ok (l.foldl (fun a p => dictInsert a p.1.day (resolveOne b1 b2 p.1 p.2)) acc) := by
  induction l generalizing acc with
  | nil => rw [resolveDays]; rfl
  | cons p rest ih =>
    obtain ⟨date, dc⟩ := p
    rw [resolveDays, if_neg (by simpa using h (date, dc) (by simp))]
    rw [ih _ fun q hq => h q (List.mem_cons_of_mem _ hq)]
    rfl

theorem getShiftPreferences_ok_parts (shiftConfs : List ShiftConf2) (dayConfs : List DayConf2)
    (daysOfMonth : List Date) (ws : List Warning) (t : Table)
    (hok : getShiftPreferences shiftConfs dayConfs daysOfMonth = .ok (ws, t)) :
    ∃ b1 b2, aggregateConfs shiftConfs emptyBuckets emptyBuckets = .ok (b1, b2)
      ∧ ws = weekdayWarnings b1 b2
      ∧ resolveDays b1 b2 (daysOfMonth.zip dayConfs) [] = .ok t := by
  rw [getShiftPreferences] at hok
  split at hok
  · cases hok
  · next b1 b2 hagg =>
    split at hok
    · cases hok
    · next t' hres =>
      injection hok with hok
      injection hok with hws ht
      exact ⟨b1, b2, hagg, hws.symm, by rw [hres, ht]⟩

theorem insertSorted_length (x : DayConf) (l : List DayConf) :
    (insertSorted x l).length = l.length + 1 := by
  induction l with
  | nil => rfl
  | cons y ys ih =>
    rw [insertSorted]
    by_cases h : y.day ≤ x.day
    · simp [h, ih]
    · simp [h]

theorem sortByDay_length (l : List DayConf) : (sortByDay l).length = l.length := by
  suffices h : ∀ acc : List DayConf,
      (l.foldl (fun acc x => insertSorted x acc) acc).length = acc.length + l.length by
    simpa using h []
  induction l with
  | nil => simp
  | cons x xs ih =>
    intro acc
    rw [List.foldl_cons, ih, insertSorted_length]
    simp only [List.length_cons]
    omega

theorem mem_insertSorted (x y : DayConf) (l : List DayConf) :
    y ∈ insertSorted x l ↔ y = x ∨ y ∈ l := by
  induction l with
  | nil => simp [insertSorted]
  | cons z zs ih =>
    rw [insertSorted]
    by_cases h : z.day ≤ x.day
    · rw [if_pos h]
      simp only [List.mem_cons, ih]
      tauto
    · rw [if_neg h]
      simp only [List.mem_cons]

theorem mem_sortByDay (l : List DayConf) (y : DayConf) : y ∈ sortByDay l ↔ y ∈ l := by
  suffices h : ∀ acc : List DayConf,
      (y ∈ l.foldl (fun acc x => insertSorted x acc) acc ↔ y ∈ acc ∨ y ∈ l) by
    simpa [sortByDay] using h []
  induction l with
  | nil => simp
  | cons x xs ih =>
    intro acc
    rw [List.foldl_cons, ih, mem_insertSorted]
    simp only [List.mem_cons]
    tauto

theorem zip_any_ne_eq_false {α β γ : Type} [DecidableEq γ] (f : α → γ) (g : β → γ)
    (l1 : List α) (l2 : List β) (h : l1.map f = l2.map g) :
    (l1.zip l2).any (fun p => f p.1 != g p.2) = false := by
  induction l1 generalizing l2 with
  | nil => simp
  | cons a r1 ih =>
    cases l2 with
    | nil => simp at h
    | cons b r2 =>
      simp only [List.map_cons, List.cons.injEq] at h
      simp [List.zip_cons_cons, List.any_cons, h.1, ih _ h.2]

theorem zip_any_ne_eq_true {α β γ : Type} [DecidableEq γ] (f : α → γ) (g : β → γ)
    (l1 : List α) (l2 : List β) (hlen : l1.length = l2.length) (h : l1.map f ≠ l2.map g) :
    (l1.zip l2).any (fun p => f p.1 != g p.2) = true := by
  induction l1 generalizing l2 with
  | nil =>
    cases l2 with
    | nil => simp at h
    | cons b r2 => simp at hlen
  | cons a r1 ih =>
    cases l2 with
    | nil => simp at hlen
    | cons b r2 =>
      by_cases hab : f a = g b
      · have hrest : r1.map f ≠ r2.map g := fun he => h (by simp [hab, he])
        simp [List.zip_cons_cons, List.any_cons, ih r2 (by simpa using hlen) hrest]
      · simp [List.zip_cons_cons, List.any_cons, bne_iff_ne, hab]

theorem monthDates_map_day (y m : Nat) :
    (monthDates y m).map Date.day = List.range' 1 (daysInMonth y m) := by
  rw [monthDates, List.map_map]
  exact List.map_id _

theorem monthDates_length (y m : Nat) : (monthDates y m).length = daysInMonth y m := by
  rw [monthDates, List.length_map, List.length_range']

theorem addShifts_error_shape (docId : Nat) (shifts : List String) (b : Buckets) (e : SchedErr)
    (h : addShifts docId shifts b = .error e) :
    ∃ s ∈ shifts, WEEK_DAY s = none ∧ e = .unknownWeekday s := by
  induction shifts generalizing b with
  | nil => rw [addShifts] at h; cases h
  | cons s rest ih =>
    rw [addShifts] at h
    cases hwd : WEEK_DAY s with
    | none =>
      rw [hwd] at h
      injection h with h
      exact ⟨s, List.mem_cons_self _ _, hwd, h.symm⟩
    | some w =>
      rw [hwd] at h
      obtain ⟨u, hu, h1, h2⟩ := ih _ h
      exact ⟨u, List.mem_cons_of_mem _ hu, h1, h2⟩

theorem addShifts_ok_names (docId : Nat) (shifts : List String) (b b' : Buckets)
    (h : addShifts docId shifts b = .ok b') : ∀ s ∈ shifts, ∃ w, WEEK_DAY s = some w := by
  induction shifts generalizing b with
  | nil => intro s hs; cases hs
  | cons s rest ih =>
    rw [addShifts] at h
    cases hwd : WEEK_DAY s with
    | none => rw [hwd] at h; cases h
    | some w =>
      rw [hwd] at h
      intro u hu
      rcases List.mem_cons.mp hu with rfl | hu'
      · exact ⟨w, hwd⟩
      · exact ih _ h u hu'

theorem addShifts_names_ok (docId : Nat) (shifts : List String) (b : Buckets)
    (hnames : ∀ s ∈ shifts, ∃ w, WEEK_DAY s = some w) :
    ∃ b', addShifts docId shifts b = .ok b' := by
  induction shifts generalizing b with
  | nil => exact ⟨b, rfl⟩
  | cons s rest ih =>
    obtain ⟨w, hw⟩ := hnames s (List.mem_cons_self _ _)
    rw [addShifts]
    rw [hw]
    exact ih _ fun u hu => hnames u (List.mem_cons_of_mem _ hu)

theorem aggregateConfs_error_shape (confs : List ShiftConf2) (a1 a2 : Buckets) (e : SchedErr)
    (h : aggregateConfs confs a1 a2 = .error e) :
    ∃ s, WEEK_DAY s = none ∧ e = .unknownWeekday s := by
  induction confs generalizing a1 a2 with
  | nil => rw [aggregateConfs] at h; cases h
  | cons sc rest ih =>
    rw [aggregateConfs] at h
    cases h1 : addShifts sc.doctorId sc.key1Shifts a1 with
    | error e1 =>
      rw [h1] at h
      injection h with h
      subst h
      obtain ⟨s, -, hn, he⟩ := addShifts_error_shape _ _ _ _ h1
      exact ⟨s, hn, he⟩
    | ok a1' =>
      rw [h1] at h
      cases h2 : addShifts sc.doctorId sc.key2Shifts a2 with
      | error e2 =>
        rw [h2] at h
        injection h with h
        subst h
        obtain ⟨s, -, hn, he⟩ := addShifts_error_shape _ _ _ _ h2
        exact ⟨s, hn, he⟩
      | ok a2' =>
        rw [h2] at h
        exact ih _ _ h

theorem aggregateConfs_ok_names (confs : List ShiftConf2) (a1 a2 b1 b2 : Buckets)
    (h : aggregateConfs confs a1 a2 = .ok (b1, b2)) :
    ∀ sc ∈ confs, ∀ s, (s ∈ sc.key1Shifts ∨ s ∈ sc.key2Shifts) → ∃ w, WEEK_DAY s = some w := by
  induction confs generalizing a1 a2 with
  | nil => intro sc hsc; cases hsc
  | cons sc rest ih =>
    rw [aggregateConfs] at h
    cases h1 : addShifts sc.doctorId sc.key1Shifts a1 with
    | error e1 => rw [h1] at h; cases h
    | ok a1' =>
      rw [h1] at h
      cases h2 : addShifts sc.doctorId sc.key2Shifts a2 with
      | error e2 => rw [h2] at h; cases h
      | ok a2' =>
        rw [h2] at h
        intro sc' hsc' s hs
        rcases List.mem_cons.mp hsc' with rfl | hsc''
        · rcases hs with hs1 | hs2
          · exact addShifts_ok_names _ _ _ _ h1 s hs1
          · exact addShifts_ok_names _ _ _ _ h2 s hs2
        · exact ih _ _ h sc' hsc'' s hs

theorem aggregateConfs_names_ok (confs : List ShiftConf2) (a1 a2 : Buckets)
    (hnames : ∀ sc ∈ confs, ∀ s, (s ∈ sc.key1Shifts ∨ s ∈ sc.key2Shifts)
      → ∃ w, WEEK_DAY s = some w) :
    ∃ p, aggregateConfs confs a1 a2 = .ok p := by
  induction confs generalizing a1 a2 with
  | nil => exact ⟨(a1, a2), rfl⟩
  | cons sc rest ih =>
    obtain ⟨b1', h1⟩ := addShifts_names_ok sc.doctorId sc.key1Shifts a1
      fun s hs => hnames sc (List.mem_cons_self _ _) s (Or.inl hs)
    obtain ⟨b2', h2⟩ := addShifts_names_ok sc.doctorId sc.key2Shifts a2
      fun s hs => hnames sc (List.mem_cons_self _ _) s (Or.inr hs)
    obtain ⟨p, hp⟩ := ih b1' b2'
      fun sc' hsc' s hs => hnames sc' (List.mem_cons_of_mem _ hsc') s hs
    rw [aggregateConfs, h1, h2]
    exact ⟨p, hp⟩

theorem aggregateConfs_bad_error (confs : List ShiftConf2) (a1 a2 : Buckets)
    (hbad : ∃ sc ∈ confs, ∃ s, (s ∈ sc.key1Shifts ∨ s ∈ sc.key2Shifts) ∧ WEEK_DAY s = none) :
    ∃ s, WEEK_DAY s = none ∧ aggregateConfs confs a1 a2 = .error (.unknownWeekday s) := by
  cases h : aggregateConfs confs a1 a2 with
  | ok p =>
    obtain ⟨sc, hsc, s, hs, hn⟩ := hbad
    obtain ⟨w, hw⟩ := aggregateConfs_ok_names _ _ _ p.1 p.2 h sc hsc s hs
    rw [hn] at hw
    cases hw
  | error e =>
    obtain ⟨s, hn, rfl⟩ := aggregateConfs_error_shape _ _ _ _ h
    exact ⟨s, hn, rfl⟩

theorem getShiftPreferences_bad_error (shiftConfs : List ShiftConf2) (dayConfs : List DayConf2)
    (daysOfMonth : List Date)
    (hbad : ∃ sc ∈ shiftConfs, ∃ s, (s ∈ sc.key1Shifts ∨ s ∈ sc.key2Shifts)
      ∧ WEEK_DAY s = none) :
    ∃ s, WEEK_DAY s = none
      ∧ getShiftPreferences shiftConfs dayConfs daysOfMonth = .error (.unknownWeekday s) := by
  obtain ⟨s, hn, he⟩ := aggregateConfs_bad_error shiftConfs emptyBuckets emptyBuckets hbad
  exact ⟨s, hn, by rw [getShiftPreferences, he]⟩

theorem getShiftPreferences_ok_of (shiftConfs : List ShiftConf2) (dayConfs : List DayConf2)
    (daysOfMonth : List Date)
    (hnames : ∀ sc ∈ shiftConfs, ∀ s, (s ∈ sc.key1Shifts ∨ s ∈ sc.key2Shifts)
      → ∃ w, WEEK_DAY s = some w)
    (hclear : ∀ dc ∈ dayConfs, interList dc.key1Ids dc.key2Ids = []) :
    ∃ r, getShiftPreferences shiftConfs dayConfs daysOfMonth = .ok r := by
  obtain ⟨⟨b1, b2⟩, hagg⟩ := aggregateConfs_names_ok shiftConfs emptyBuckets emptyBuckets hnames
  refine ⟨(weekdayWarnings b1 b2,
    (daysOfMonth.zip dayConfs).foldl
      (fun a q => dictInsert a q.1.day (resolveOne b1 b2 q.1 q.2)) []), ?_⟩
  have hres := resolveDays_all_clear b1 b2 (daysOfMonth.zip dayConfs) []
    (fun q hq => hclear q.2 (List.of_mem_zip hq).2)
  rw [getShiftPreferences, hagg]
  show (match resolveDays b1 b2 (daysOfMonth.zip dayConfs) [] with
    | Except.error e => Except.error e
    | Except.ok t => Except.ok (weekdayWarnings b1 b2, t)) = _
  rw [hres]

theorem mem_interList (a b : List Nat) (x : Nat) : x ∈ interList a b ↔ x ∈ a ∧ x ∈ b := by
  simp [interList, List.mem_filter, List.mem_dedup]

theorem mem_bucketAdd (b : Buckets) (w' w : Fin 7) (d x : Nat) :
    x ∈ bucketAdd b w' d w ↔ x ∈ b w ∨ (x = d ∧ w = w') := by
  unfold bucketAdd
  by_cases hw : w = w'
  · subst hw
    simp
  · simp [hw]

theorem addShifts_ok_mem (docId x : Nat) (shifts : List String) (b b' : Buckets) (w : Fin 7)
    (h : addShifts docId shifts b = .ok b') :
    x ∈ b' w ↔ x ∈ b w ∨ (x = docId ∧ ∃ s ∈ shifts, WEEK_DAY s = some w) := by
  induction shifts generalizing b with
  | nil =>
    rw [addShifts] at h
    injection h with h
    subst h
    simp
  | cons s rest ih =>
    rw [addShifts] at h
    cases hwd : WEEK_DAY s with
    | none => rw [hwd] at h; cases h
    | some w' =>
      rw [hwd] at h
      rw [ih _ h, mem_bucketAdd]
      constructor
      · rintro ((hb | ⟨rfl, rfl⟩) | ⟨rfl, u, hu, hwu⟩)
        · exact Or.inl hb
        · exact Or.inr ⟨rfl, s, List.mem_cons_self _ _, hwd⟩
        · exact Or.inr ⟨rfl, u, List.mem_cons_of_mem _ hu, hwu⟩
      · rintro (hb | ⟨rfl, u, hu, hwu⟩)
        · exact Or.inl (Or.inl hb)
        · rcases List.mem_cons.mp hu with rfl | hu'
          · rw [hwd] at hwu
            injection hwu with hwu
            exact Or.inl (Or.inr ⟨rfl, hwu.symm⟩)
          · exact Or.inr ⟨rfl, u, hu', hwu⟩

theorem aggregateConfs_mem (confs : List ShiftConf2) (a1 a2 b1 b2 : Buckets)
    (h : aggregateConfs confs a1 a2 = .ok (b1, b2)) (x : Nat) (w : Fin 7) :
    (x ∈ b1 w ↔ x ∈ a1 w
        ∨ ∃ sc ∈ confs, x = sc.doctorId ∧ ∃ s ∈ sc.key1Shifts, WEEK_DAY s = some w)
    ∧ (x ∈ b2 w ↔ x ∈ a2 w
        ∨ ∃ sc ∈ confs, x = sc.doctorId ∧ ∃ s ∈ sc.key2Shifts, WEEK_DAY s = some w) := by
  induction confs generalizing a1 a2 with
  | nil =>
    rw [aggregateConfs] at h
    injection h with h
    rw [Prod.mk.injEq] at h
    obtain ⟨rfl, rfl⟩ := h
    simp
  | cons sc rest ih =>
    rw [aggregateConfs] at h
    cases h1 : addShifts sc.doctorId sc.key1Shifts a1 with
    | error e => rw [h1] at h; cases h
    | ok a1' =>
      rw [h1] at h
      cases h2 : addShifts sc.doctorId sc.key2Shifts a2 with
      | error e => rw [h2] at h; cases h
      | ok a2' =>
        rw [h2] at h
        have hrest := ih _ _ h
        constructor
        · rw [hrest.1, addShifts_ok_mem _ _ _ _ _ _ h1, List.exists_mem_cons_iff, or_assoc]
        · rw [hrest.2, addShifts_ok_mem _ _ _ _ _ _ h2, List.exists_mem_cons_iff, or_assoc]

theorem weekdayWarnings_mem (b1 b2 : Buckets) (x : Nat) (w : Fin 7)
    (h1 : x ∈ b1 w) (h2 : x ∈ b2 w) :
    ∃ ids, Warning.weekdayConflict ids w ∈ weekdayWarnings b1 b2 ∧ x ∈ ids := by
  have hx : x ∈ interList (b1 w) (b2 w) := (mem_interList _ _ _).mpr ⟨h1, h2⟩
  have hne : interList (b1 w) (b2 w) ≠ [] := by
    intro he
    rw [he] at hx
    cases hx
  refine ⟨interList (b1 w) (b2 w), ?_, hx⟩
  unfold weekdayWarnings
  exact List.mem_filterMap.mpr ⟨w, List.mem_finRange w, by rw [if_neg hne]⟩

theorem dictGet_eq_none {κ α : Type} [DecidableEq κ] (l : List (κ × α)) (k : κ) :
    dictGet l k = none ↔ k ∉ l.map Prod.fst := by
  induction l with
  | nil => simp [dictGet]
  | cons p rest ih =>
    obtain ⟨k', v⟩ := p
    rw [dictGet]
    by_cases h : k' = k
    · simp [h]
    · rw [if_neg h]
      simp only [List.map_cons, List.mem_cons, not_or, ih]
      exact ⟨fun hh => ⟨fun he => h he.symm, hh⟩, fun hh => hh.2⟩

theorem dictGet_append_left {κ α : Type} [DecidableEq κ] (l1 l2 : List (κ × α)) (k : κ)
    (v : α) (h : dictGet l1 k = some v) : dictGet (l1 ++ l2) k = some v := by
  induction l1 with
  | nil => cases h
  | cons p rest ih =>
    obtain ⟨k', v'⟩ := p
    rw [dictGet] at h
    rw [List.cons_append, dictGet]
    by_cases hp : k' = k
    · rwa [if_pos hp] at h ⊢
    · rw [if_neg hp] at h ⊢
      exact ih h

theorem dictGet_append_right {κ α : Type} [DecidableEq κ] (l1 l2 : List (κ × α)) (k : κ)
    (h : dictGet l1 k = none) : dictGet (l1 ++ l2) k = dictGet l2 k := by
  induction l1 with
  | nil => rfl
  | cons p rest ih =>
    obtain ⟨k', v'⟩ := p
    rw [dictGet] at h
    rw [List.cons_append, dictGet]
    by_cases hp : k' = k
    · rw [if_pos hp] at h; cases h
    · rw [if_neg hp] at h ⊢
      exact ih h

theorem foldl_ite_filter {α β : Type} (p : β → Bool) (g : α → β → α) (l : List β) (init : α) :
    l.foldl (fun a b => if p b then g a b else a) init = (l.filter p).foldl g init := by
  induction l generalizing init with
  | nil => rfl
  | cons b rest ih =>
    by_cases h : p b
    · simp only [List.foldl_cons, List.filter_cons, h, if_true, ih]
    · simp only [List.foldl_cons, List.filter_cons, h, if_false, ih]
      rw [if_neg (by simp [h]), if_neg (by simp [h])]

theorem nodup_keys_row (c : Nat) (dcs : List DayConf) (h : (dcs.map DayConf.day).Nodup) :
    ((dcs.filter fun dc => dc.isWorkingDay).map fun dc => (c, dc.day)).Nodup := by
  have h2 : ((dcs.filter fun dc => dc.isWorkingDay).map DayConf.day).Nodup :=
    ((List.filter_sublist dcs).map DayConf.day).nodup h
  have h3 := List.pairwise_map.mp h2
  exact List.pairwise_map.mpr (h3.imp fun hne heq => hne (by
    rw [Prod.mk.injEq] at heq
    exact heq.2))

theorem enumerateVars_go (scs : List ShiftConf) (dcs : List DayConf)
    (hdays : (dcs.map DayConf.day).Nodup) :
    ∀ acc : List ((Nat × Nat) × List (List Char)),
      (scs.map ShiftConf.doctorId).Nodup →
      (∀ k ∈ acc.map Prod.fst, k.1 ∉ scs.map ShiftConf.doctorId) →
      (acc.map Prod.fst).Nodup →
      scs.foldl (fun m sc => dcs.foldl (fun m' dc => if dc.isWorkingDay
          then dictInsert m' (sc.doctorId, dc.day) (varsFor sc dc) else m') m) acc
        = acc ++ scs.flatMap (varRow dcs) := by
  induction scs with
  | nil => intro acc _ _ _; simp
  | cons sc rest ih =>
    intro acc hids hfresh hnd
    simp only [List.map_cons, List.nodup_cons] at hids
    have hrowkeys : ((varRow dcs sc).map Prod.fst)
        = (dcs.filter fun dc => dc.isWorkingDay).map fun dc => (sc.doctorId, dc.day) := by
      rw [varRow, List.map_map]
      rfl
    have ha : ((acc.map Prod.fst)
        ++ ((dcs.filter fun dc => dc.isWorkingDay).map fun dc => (sc.doctorId, dc.day))).Nodup := by
      rw [List.nodup_append]
      refine ⟨hnd, nodup_keys_row _ _ hdays, fun k hk hk' => ?_⟩
      rcases List.mem_map.mp hk' with ⟨dc, -, rfl⟩
      exact (hfresh _ hk) (by simp)
    have hinner : dcs.foldl (fun m' dc => if dc.isWorkingDay
        then dictInsert m' (sc.doctorId, dc.day) (varsFor sc dc) else m') acc
        = acc ++ varRow dcs sc := by
      rw [foldl_ite_filter (fun dc => dc.isWorkingDay)
        (fun m' dc => dictInsert m' (sc.doctorId, dc.day) (varsFor sc dc)) dcs acc]
      exact foldl_dictInsert_eq (fun dc => (sc.doctorId, dc.day)) (fun dc => varsFor sc dc) _ acc ha
    rw [List.foldl_cons, hinner, ih _ hids.2 ?_ ?_]
    · rw [List.flatMap_cons, List.append_assoc]
    · intro k hk
      rw [List.map_append, List.mem_append] at hk
      rcases hk with hk | hk
      · exact fun hmem => hfresh k hk (List.mem_cons_of_mem _ hmem)
      · rw [hrowkeys] at hk
        rcases List.mem_map.mp hk with ⟨dc, -, rfl⟩
        exact hids.1
    · rw [List.map_append, hrowkeys]
      exact ha

theorem enumerateVars_eq (scs : List ShiftConf) (dcs : List DayConf)
    (hids : (scs.map ShiftConf.doctorId).Nodup)
    (hdays : (dcs.map DayConf.day).Nodup) :
    enumerateVars scs dcs = scs.flatMap (varRow dcs) := by
  rw [enumerateVars, enumerateVars_go scs dcs hdays [] hids (by simp) (by simp)]
  rfl

theorem dictGet_rows_working (scs : List ShiftConf) (dcs : List DayConf)
    (sc : ShiftConf) (dc : DayConf)
    (hids : (scs.map ShiftConf.doctorId).Nodup)
    (hdays : (dcs.map DayConf.day).Nodup)
    (hsc : sc ∈ scs) (hdc : dc ∈ dcs) (hw : dc.isWorkingDay = true) :
    dictGet (scs.flatMap (varRow dcs)) (sc.doctorId, dc.day) = some (varsFor sc dc) := by
  induction scs with
  | nil => cases hsc
  | cons sc' rest ih =>
    simp only [List.map_cons, List.nodup_cons] at hids
    rw [List.flatMap_cons]
    rcases List.mem_cons.mp hsc with rfl | hsc'
    · refine dictGet_append_left _ _ _ _ ?_
      have := dictGet_map_of_mem (fun dc : DayConf => (sc.doctorId, dc.day))
        (fun dc => varsFor sc dc) (dcs.filter fun dc => dc.isWorkingDay) dc
        (List.mem_filter.mpr ⟨hdc, hw⟩) (nodup_keys_row _ _ hdays)
      exact this
    · refine (dictGet_append_right _ _ _ ?_).trans (ih hids.2 hsc')
      rw [dictGet_eq_none]
      intro hk
      rw [varRow, List.map_map] at hk
      rcases List.mem_map.mp hk with ⟨dc', -, heq⟩
      have : sc'.doctorId = sc.doctorId := congrArg Prod.fst heq
      exact hids.1 (this ▸ List.mem_map_of_mem ShiftConf.doctorId hsc')

theorem dictGet_rows_nonworking (scs : List ShiftConf) (dcs : List DayConf) (dc : DayConf)
    (hdays : (dcs.map DayConf.day).Nodup)
    (hdc : dc ∈ dcs) (hw : dc.isWorkingDay = false) (docId : Nat) :
    dictGet (scs.flatMap (varRow dcs)) (docId, dc.day) = none := by
  rw [dictGet_eq_none]
  intro hk
  rcases List.mem_map.mp hk with ⟨e, he, hke⟩
  rcases List.mem_flatMap.mp he with ⟨sc, -, hrow⟩
  rw [varRow] at hrow
  rcases List.mem_map.mp hrow with ⟨dc', hdc', rfl⟩
  have hdc'2 := List.mem_filter.mp hdc'
  have hdayeq : dc'.day = dc.day := congrArg Prod.snd hke
  have : dc' = dc := List.inj_on_of_nodup_map hdays hdc'2.1 hdc hdayeq
  rw [this] at hdc'2
  rw [hw] at hdc'2
  cases hdc'2.2

theorem getShiftPreferences_ok_table (shiftConfs : List ShiftConf2) (dayConfs : List DayConf2)
    (daysOfMonth : List Date) (ws : List Warning) (t : Table) (b1 b2 : Buckets)
    (hagg : aggregateConfs shiftConfs emptyBuckets emptyBuckets = .ok (b1, b2))
    (hok : getShiftPreferences shiftConfs dayConfs daysOfMonth = .ok (ws, t))
    (hnd : ((daysOfMonth.zip dayConfs).map fun q => q.1.day).Nodup) :
    t = (daysOfMonth.zip dayConfs).map fun q => (q.1.day, resolveOne b1 b2 q.1 q.2) := by
  obtain ⟨b1', b2', hagg', _, hres⟩ := getShiftPreferences_ok_parts _ _ _ _ _ hok
  rw [hagg] at hagg'
  injection hagg' with h'
  rw [Prod.mk.injEq] at h'
  obtain ⟨rfl, rfl⟩ := h'
  rw [resolveDays_ok_fold _ _ _ _ _ hres]
  exact foldl_dictInsert_eq (fun q : Date × DayConf2 => q.1.day)
    (fun q => resolveOne b1 b2 q.1 q.2) _ [] (by simpa using hnd)

/-- C1: Override-wins filtering.  For a day whose date and day configuration
are aligned by the resolution loop, a staff id in the weekday bucket of one
category that the day lists in the opposite-category override is absent from
that day's resolved set of the first category, unless the day also lists it
in the same-category override, in which case it is always included; and
symmetrically with the two categories swapped. -/
theorem C1_override_wins (shiftConfs : List ShiftConf2) (dayConfs : List DayConf2)
    (daysOfMonth : List Date) (ws : List Warning) (t : Table) (b1 b2 : Buckets)
    (date : Date) (dc : DayConf2) (x : Nat) (p s : List Nat)
    (hagg : aggregateConfs shiftConfs emptyBuckets emptyBuckets = .ok (b1, b2))
    (hok : getShiftPreferences shiftConfs dayConfs daysOfMonth = .ok (ws, t))
    (hnd : (daysOfMonth.map Date.day).Nodup)
    (hmem : (date, dc) ∈ daysOfMonth.zip dayConfs)
    (hget : dictGet t date.day = some (p, s)) :
    (x ∈ b1 date.weekday → x ∈ dc.key2Ids → x ∉ dc.key1Ids → x ∉ p)
    ∧ (x ∈ dc.key1Ids → x ∈ p)
    ∧ (x ∈ b2 date.weekday → x ∈ dc.key1Ids → x ∉ dc.key2Ids → x ∉ s)
    ∧ (x ∈ dc.key2Ids → x ∈ s) := by
  have hndz : ((daysOfMonth.zip dayConfs).map fun q => q.1.day).Nodup :=
    nodup_zip_map_fst Date.day daysOfMonth dayConfs hnd
  have ht := getShiftPreferences_ok_table _ _ _ _ _ _ _ hagg hok hndz
  subst ht
  have hentry := dictGet_map_of_mem (fun q : Date × DayConf2 => q.1.day)
    (fun q => resolveOne b1 b2 q.1 q.2) _ (date, dc) hmem hndz
  rw [hget] at hentry
  injection hentry with hentry
  rw [Prod.ext_iff] at hentry
  obtain ⟨hp, hs⟩ := hentry
  simp only [resolveOne, unionList] at hp hs
  refine ⟨fun _ hx2 hx1 hxp => ?_, fun hx1 => ?_, fun _ hx1 hx2 hxs => ?_, fun hx2 => ?_⟩
  · rw [hp] at hxp
    rcases (List.mem_dedup.mp hxp |> List.mem_append.mp) with hf | hh
    · exact absurd hx2 (of_decide_eq_true (List.mem_filter.mp hf).2)
    · exact hx1 hh
  · rw [hp]
    exact List.mem_dedup.mpr (List.mem_append.mpr (Or.inr hx1))
  · rw [hs] at hxs
    rcases (List.mem_dedup.mp hxs |> List.mem_append.mp) with hf | hh
    · exact absurd hx1 (of_decide_eq_true (List.mem_filter.mp hf).2)
    · exact hx2 hh
  · rw [hs]
    exact List.mem_dedup.mpr (List.mem_append.mpr (Or.inr hx2))

/-- Witness for C1 at the concrete input: doctor 4 wants Mondays, day 1 is a
Monday listing doctor 4 in the opposite override, so day 1 resolves to the
pair of the empty first set and the second set holding doctor 4. -/
theorem C1_override_wins_witness :
    (aggregateConfs exC1Confs emptyBuckets emptyBuckets = .ok (exC1B1, emptyBuckets)
      ∧ getShiftPreferences exC1Confs exC1DayConfs exC1Days = .ok ([], [(1, ([], [4]))])
      ∧ ((exC1Days.map Date.day).Nodup)
      ∧ ((⟨1, 0⟩ : Date), (⟨[], [4]⟩ : DayConf2)) ∈ exC1Days.zip exC1DayConfs
      ∧ dictGet [(1, (([] : List Nat), [4]))] (1 : Nat) = some ([], [4]))
    ∧ ((4 ∈ exC1B1 (0 : Fin 7) → 4 ∈ [4] → (4 : Nat) ∉ ([] : List Nat) → (4 : Nat) ∉ ([] : List Nat))
      ∧ ((4 : Nat) ∈ ([] : List Nat) → (4 : Nat) ∈ ([] : List Nat))
      ∧ (4 ∈ emptyBuckets (0 : Fin 7) → (4 : Nat) ∈ ([] : List Nat) → 4 ∉ [4] → 4 ∉ [4])
      ∧ (4 ∈ [4] → 4 ∈ [4])) :=
  ⟨⟨rfl, rfl, by decide, by decide, by decide⟩,
    C1_override_wins exC1Confs exC1DayConfs exC1Days [] [(1, ([], [4]))] exC1B1 emptyBuckets
      ⟨1, 0⟩ ⟨[], [4]⟩ 4 [] [4] rfl rfl (by decide) (by decide) (by decide)⟩

theorem digitChar_toNat (n : Nat) (h : n < 10) : (Nat.digitChar n).toNat = 48 + n := by
  interval_cases n <;> rfl

theorem digitChar_inj (a b : Nat) (ha : a < 10) (hb : b < 10)
    (h : Nat.digitChar a = Nat.digitChar b) : a = b := by
  have h2 := congrArg Char.toNat h
  rw [digitChar_toNat a ha, digitChar_toNat b hb] at h2
  omega

theorem digitChar_ne_underscore (n : Nat) (h : n < 10) : Nat.digitChar n ≠ '_' := by
  intro he
  have h2 := congrArg Char.toNat he
  rw [digitChar_toNat n h] at h2
  have h95 : ('_').toNat = 95 := rfl
  rw [h95] at h2
  omega

theorem natChars_ne_nil (n : Nat) : natChars n ≠ [] := by
  rw [natChars]
  by_cases h : n < 10
  · simp [h]
  · simp [h]

theorem mem_natChars_lt (n : Nat) : ∀ c ∈ natChars n, ∃ k, k < 10 ∧ c = Nat.digitChar k := by
  induction n using Nat.strong_induction_on with
  | _ n ih =>
    rw [natChars]
    by_cases h : n < 10
    · rw [dif_pos h]
      intro c hc
      exact ⟨n, h, List.mem_singleton.mp hc⟩
    · rw [dif_neg h]
      intro c hc
      rcases List.mem_append.mp hc with h1 | h2
      · exact ih (n / 10) (Nat.div_lt_self (by omega) (by omega)) c h1
      · exact ⟨n % 10, Nat.mod_lt _ (by omega), List.mem_singleton.mp h2⟩

theorem underscore_not_mem_natChars (n : Nat) : ('_') ∉ natChars n := by
  intro hm
  obtain ⟨k, hk, he⟩ := mem_natChars_lt n _ hm
  exact digitChar_ne_underscore k hk he.symm

theorem natChars_lt_ten (n : Nat) (h : n < 10) : natChars n = [Nat.digitChar n] := by
  rw [natChars]
  rw [dif_pos h]

theorem natChars_ge_ten (n : Nat) (h : ¬ n < 10) :
    natChars n = natChars (n / 10) ++ [Nat.digitChar (n % 10)] := by
  rw [natChars]
  rw [dif_neg h]

theorem natChars_inj (a : Nat) : ∀ b, natChars a = natChars b → a = b := by
  induction a using Nat.strong_induction_on with
  | _ a ih =>
    intro b h
    by_cases ha : a < 10 <;> by_cases hb : b < 10
    · rw [natChars_lt_ten a ha, natChars_lt_ten b hb] at h
      injection h with h1 _
      exact digitChar_inj _ _ ha hb h1
    · rw [natChars_lt_ten a ha, natChars_ge_ten b hb] at h
      have hlen := congrArg List.length h
      cases hxs : natChars (b / 10) with
      | nil => exact absurd hxs (natChars_ne_nil _)
      | cons c cs =>
        rw [hxs] at hlen
        simp at hlen
    · rw [natChars_ge_ten a ha, natChars_lt_ten b hb] at h
      have hlen := congrArg List.length h
      cases hxs : natChars (a / 10) with
      | nil => exact absurd hxs (natChars_ne_nil _)
      | cons c cs =>
        rw [hxs] at hlen
        simp at hlen
    · rw [natChars_ge_ten a ha, natChars_ge_ten b hb] at h
      have hlen := congrArg List.length h
      simp only [List.length_append, List.length_cons, List.length_nil] at hlen
      obtain ⟨h1, h2⟩ := List.append_inj h (by omega)
      injection h2 with h2 _
      have hd : a / 10 = b / 10 :=
        ih (a / 10) (Nat.div_lt_self (by omega) (by omega)) _ h1
      have hm : a % 10 = b % 10 :=
        digitChar_inj _ _ (Nat.mod_lt _ (by omega)) (Nat.mod_lt _ (by omega)) h2
      omega

theorem append_sep_inj {α : Type} {c : α} : ∀ {a a' r r' : List α}, c ∉ a → c ∉ a' →
    a ++ c :: r = a' ++ c :: r' → a = a' ∧ r = r' := by
  intro a
  induction a with
  | nil =>
    intro a' r r' _ ha' h
    cases a' with
    | nil =>
      rw [List.nil_append, List.nil_append] at h
      injection h with _ h2
      exact ⟨rfl, h2⟩
    | cons x t =>
      rw [List.nil_append, List.cons_append] at h
      injection h with h1 _
      exact absurd (h1 ▸ List.mem_cons_self x t) ha'
  | cons x t ih =>
    intro a' r r' ha ha' h
    cases a' with
    | nil =>
      rw [List.cons_append, List.nil_append] at h
      injection h with h1 _
      exact absurd (h1.symm ▸ List.mem_cons_self x t) ha
    | cons y t' =>
      rw [List.cons_append, List.cons_append] at h
      injection h with h1 h2
      obtain ⟨he, hr⟩ := ih (fun hm => ha (List.mem_cons_of_mem _ hm))
        (fun hm => ha' (List.mem_cons_of_mem _ hm)) h2
      exact ⟨by rw [h1, he], hr⟩

theorem varName_inj (d1 n1 : Nat) (k1 : Char) (d2 n2 : Nat) (k2 : Char)
    (h : varName d1 n1 k1 = varName d2 n2 k2) : d1 = d2 ∧ n1 = n2 ∧ k1 = k2 := by
  rw [varName, varName] at h
  have h0 := List.append_cancel_left h
  simp only [List.singleton_append] at h0
  obtain ⟨hA, hrest⟩ := append_sep_inj (underscore_not_mem_natChars d1)
    (underscore_not_mem_natChars d2) h0
  have hrest2 := List.append_cancel_left hrest
  obtain ⟨hB, hk⟩ := append_sep_inj (underscore_not_mem_natChars n1)
    (underscore_not_mem_natChars n2) hrest2
  injection hk with hk _
  exact ⟨natChars_inj _ _ hA, natChars_inj _ _ hB, hk⟩

theorem mem_varsFor (sc : ShiftConf) (dc : DayConf) (x : List Char) (hx : x ∈ varsFor sc dc) :
    ∃ k, x = varName sc.doctorId dc.day k := by
  rw [varsFor] at hx
  rcases List.mem_append.mp hx with h | h
  · exact ⟨SHIFT, List.mem_singleton.mp h⟩
  · by_cases hc : sc.doesConsultations
    · rw [if_pos hc] at h
      exact ⟨CONSULT, List.mem_singleton.mp h⟩
    · rw [if_neg hc] at h
      cases h

theorem mem_ite_varsFor (sc : ShiftConf) (dc : DayConf) (x : List Char)
    (hx : x ∈ (if dc.isWorkingDay then varsFor sc dc else [])) :
    ∃ k, x = varName sc.doctorId dc.day k := by
  by_cases hw : dc.isWorkingDay
  · rw [if_pos hw] at hx
    exact mem_varsFor _ _ _ hx
  · rw [if_neg hw] at hx
    cases hx

theorem mem_createdRow (sc : ShiftConf) (dcs : List DayConf) (x : List Char)
    (hx : x ∈ dcs.flatMap fun dc => if dc.isWorkingDay then varsFor sc dc else []) :
    ∃ dc ∈ dcs, ∃ k, x = varName sc.doctorId dc.day k := by
  rcases List.mem_flatMap.mp hx with ⟨dc, hdc, hxd⟩
  obtain ⟨k, hk⟩ := mem_ite_varsFor sc dc x hxd
  exact ⟨dc, hdc, k, hk⟩

/-- C2: Decision-variable cardinality.  With one shift configuration per
doctor and distinct day numbers, every working day yields exactly one entry
per doctor, holding the shift variable alone for a non-consultation doctor
and the shift plus consultation variables for a consultation-capable one;
non-working days yield no entry for any doctor. -/
theorem C2_variable_cardinality (shiftConfs : List ShiftConf) (dayConfs : List DayConf)
    (hids : (shiftConfs.map ShiftConf.doctorId).Nodup)
    (hdays : (dayConfs.map DayConf.day).Nodup) :
    (∀ sc ∈ shiftConfs, ∀ dc ∈ dayConfs, dc.isWorkingDay = true →
      dictGet (enumerateVars shiftConfs dayConfs) (sc.doctorId, dc.day) = some (varsFor sc dc)
        ∧ (varsFor sc dc).length = if sc.doesConsultations then 2 else 1)
    ∧ ∀ dc ∈ dayConfs, dc.isWorkingDay = false →
        ∀ docId, dictGet (enumerateVars shiftConfs dayConfs) (docId, dc.day) = none := by
  rw [enumerateVars_eq _ _ hids hdays]
  refine ⟨fun sc hsc dc hdc hw =>
      ⟨dictGet_rows_working _ _ _ _ hids hdays hsc hdc hw, ?_⟩,
    fun dc hdc hw docId => dictGet_rows_nonworking _ _ _ hdays hdc hw docId⟩
  rw [varsFor]
  by_cases h : sc.doesConsultations
  · simp [h]
  · simp [h]

/-- Witness for C2: doctor 1 without and doctor 2 with consultations over a
working day 1 and a non-working day 2. -/
theorem C2_variable_cardinality_witness :
    ((exC2Scs.map ShiftConf.doctorId).Nodup ∧ (exC2Dcs.map DayConf.day).Nodup)
    ∧ ((∀ sc ∈ exC2Scs, ∀ dc ∈ exC2Dcs, dc.isWorkingDay = true →
        dictGet (enumerateVars exC2Scs exC2Dcs) (sc.doctorId, dc.day) = some (varsFor sc dc)
          ∧ (varsFor sc dc).length = if sc.doesConsultations then 2 else 1)
      ∧ ∀ dc ∈ exC2Dcs, dc.isWorkingDay = false →
          ∀ docId, dictGet (enumerateVars exC2Scs exC2Dcs) (docId, dc.day) = none) :=
  ⟨⟨by decide, by decide⟩, C2_variable_cardinality exC2Scs exC2Dcs (by decide) (by decide)⟩

/-- C3: Calendar-shape validation.  For a valid target month, whenever the
number of supplied day configurations differs from the number of calendar
days of the month, or the day numbers taken in ascending order differ from
the positions 1 to N, the run stops with the calendar-mismatch error (the
ValueError of scheduler.py lines 314 to 328), before any resolution or
enumeration result is produced. -/
theorem C3_calendar_mismatch (doctors : List Doctor) (shiftConfs : List ShiftConf)
    (cal : CalendarInput)
    (hm : 1 ≤ cal.month ∧ cal.month ≤ 12)
    (hbad : cal.dayConfigurations.length ≠ daysInMonth cal.year cal.month
      ∨ (sortByDay cal.dayConfigurations).map DayConf.day
          ≠ List.range' 1 (daysInMonth cal.year cal.month)) :
    schedule doctors shiftConfs cal = .error .calendarMismatch := by
  rw [schedule, if_neg (by omega)]
  by_cases hcount : cal.dayConfigurations.length = daysInMonth cal.year cal.month
  · have hdays : (sortByDay cal.dayConfigurations).map DayConf.day
        ≠ List.range' 1 (daysInMonth cal.year cal.month) := by tauto
    rw [if_neg (show ¬ (monthDates cal.year cal.month).length
        ≠ (sortByDay cal.dayConfigurations).length by
      rw [monthDates_length, sortByDay_length, hcount]
      exact fun h => h rfl)]
    rw [if_pos (zip_any_ne_eq_true Date.day DayConf.day _ _
      (by rw [monthDates_length, sortByDay_length, hcount])
      (by rw [monthDates_map_day]; exact fun he => hdays (by rw [← he])))]
  · rw [if_pos (show (monthDates cal.year cal.month).length
        ≠ (sortByDay cal.dayConfigurations).length by
      rw [monthDates_length, sortByDay_length]
      exact fun he => hcount he.symm)]

/-- Witness for C3: February 2021 with an empty day-configuration list. -/
theorem C3_calendar_mismatch_witness :
    ((1 ≤ exC3Cal.month ∧ exC3Cal.month ≤ 12)
      ∧ (exC3Cal.dayConfigurations.length ≠ daysInMonth exC3Cal.year exC3Cal.month
        ∨ (sortByDay exC3Cal.dayConfigurations).map DayConf.day
            ≠ List.range' 1 (daysInMonth exC3Cal.year exC3Cal.month)))
    ∧ schedule [] [] exC3Cal = .error .calendarMismatch :=
  ⟨⟨by decide, by decide⟩, C3_calendar_mismatch [] [] exC3Cal (by decide) (by decide)⟩

/-- C4, counterexample to the claim as stated.  The claim promises that an
unrecognized weekday name anywhere in the recurring lists makes the run fail
with the configuration error, detected by a validation pass over the full
input before any per-day processing.  At this input the bad name Funday sits
only in the unavailableShifts list, so it would be read only by the second
resolution invocation; the first invocation's per-day processing runs first
and crashes on a same-day override conflict, so the run fails with the
format-crash KeyError of day 1 and never reports the unknown weekday. -/
theorem C4_counterexample :
    ((1 ≤ exC4CECal.month ∧ exC4CECal.month ≤ 12)
      ∧ exC4CECal.dayConfigurations.length = daysInMonth exC4CECal.year exC4CECal.month
      ∧ (sortByDay exC4CECal.dayConfigurations).map DayConf.day
          = List.range' 1 (daysInMonth exC4CECal.year exC4CECal.month)
      ∧ (∃ sc ∈ exC4ShiftConfs, ∃ s ∈ sc.wantedShifts ++ sc.unwantedShifts ++ sc.mandatoryShifts
          ++ sc.unavailableShifts, WEEK_DAY s = none))
    ∧ schedule [] exC4ShiftConfs exC4CECal = .error (.dayConflictFormatKeyError 1)
    ∧ ∀ s, schedule [] exC4ShiftConfs exC4CECal ≠ .error (.unknownWeekday s) := by
  refine ⟨⟨by decide, by decide, by decide, by decide⟩, by decide, ?_⟩
  intro s h
  have he : schedule [] exC4ShiftConfs exC4CECal = .error (.dayConflictFormatKeyError 1) := by
    decide
  rw [he] at h
  injection h with h2
  exact SchedErr.noConfusion h2

/-- C4, amended.  For a calendar-valid input whose wanted and unwanted
override lists never conflict on the same day, an unrecognized weekday name
in any recurring preference list makes the run abort with the unknown-weekday
KeyError and no output.  The unamended claim's eager full-input validation
pass does not exist: a bad name read only by the mandatory and unavailable
pair is detected after the wanted and unwanted pair's per-day processing has
already completed, and a failure inside that earlier processing preempts the
detection (see the counterexample). -/
theorem C4_unknown_weekday_amended (doctors : List Doctor) (shiftConfs : List ShiftConf)
    (cal : CalendarInput)
    (hm : 1 ≤ cal.month ∧ cal.month ≤ 12)
    (hcount : cal.dayConfigurations.length = daysInMonth cal.year cal.month)
    (hdays : (sortByDay cal.dayConfigurations).map DayConf.day
        = List.range' 1 (daysInMonth cal.year cal.month))
    (hnoconf : ∀ dc ∈ cal.dayConfigurations, interList dc.wantedShifts dc.unwantedShifts = [])
    (hbad : ∃ sc ∈ shiftConfs, ∃ s ∈ sc.wantedShifts ++ sc.unwantedShifts
        ++ sc.mandatoryShifts ++ sc.unavailableShifts, WEEK_DAY s = none) :
    ∃ s, WEEK_DAY s = none ∧ schedule doctors shiftConfs cal = .error (.unknownWeekday s) := by
  have hlen : ¬ (monthDates cal.year cal.month).length
      ≠ (sortByDay cal.dayConfigurations).length := by
    rw [monthDates_length, sortByDay_length, hcount]
    exact fun h => h rfl
  have hany : ((monthDates cal.year cal.month).zip (sortByDay cal.dayConfigurations)).any
      (fun p => p.1.day != p.2.day) = false :=
    zip_any_ne_eq_false Date.day DayConf.day _ _ (by rw [monthDates_map_day, hdays])
  by_cases hb1 : ∃ sc ∈ shiftConfs, ∃ s,
      (s ∈ sc.wantedShifts ∨ s ∈ sc.unwantedShifts) ∧ WEEK_DAY s = none
  · obtain ⟨s, hn, he⟩ := getShiftPreferences_bad_error (shiftConfs.map wantedPair)
      ((sortByDay cal.dayConfigurations).map wantedDayPair) (monthDates cal.year cal.month)
      (by
        obtain ⟨sc, hsc, s, hs, hn⟩ := hb1
        exact ⟨wantedPair sc, List.mem_map_of_mem _ hsc, s, hs, hn⟩)
    refine ⟨s, hn, ?_⟩
    rw [schedule, if_neg (by omega), if_neg hlen, if_neg (by simp [hany]), he]
  · have hnames1 : ∀ sc ∈ shiftConfs.map wantedPair, ∀ s,
        (s ∈ sc.key1Shifts ∨ s ∈ sc.key2Shifts) → ∃ w, WEEK_DAY s = some w := by
      intro sc' hsc' s hs
      obtain ⟨sc, hsc, rfl⟩ := List.mem_map.mp hsc'
      cases hwd : WEEK_DAY s with
      | some w => exact ⟨w, rfl⟩
      | none => exact absurd ⟨sc, hsc, s, hs, hwd⟩ hb1
    have hclear1 : ∀ dc ∈ (sortByDay cal.dayConfigurations).map wantedDayPair,
        interList dc.key1Ids dc.key2Ids = [] := by
      intro dc' hdc'
      obtain ⟨dc, hdc, rfl⟩ := List.mem_map.mp hdc'
      exact hnoconf dc ((mem_sortByDay _ _).mp hdc)
    obtain ⟨r1, hok1⟩ := getShiftPreferences_ok_of _ _ _ hnames1 hclear1
    obtain ⟨sc, hsc, s, hs, hn⟩ := hbad
    rw [List.mem_append, List.mem_append, List.mem_append] at hs
    have hs2 : s ∈ sc.mandatoryShifts ∨ s ∈ sc.unavailableShifts := by
      rcases hs with ((h1 | h2) | h3) | h4
      · exact absurd ⟨sc, hsc, s, Or.inl h1, hn⟩ hb1
      · exact absurd ⟨sc, hsc, s, Or.inr h2, hn⟩ hb1
      · exact Or.inl h3
      · exact Or.inr h4
    obtain ⟨s', hn', he2⟩ := getShiftPreferences_bad_error (shiftConfs.map mandatoryPair)
      ((sortByDay cal.dayConfigurations).map mandatoryDayPair) (monthDates cal.year cal.month)
      ⟨mandatoryPair sc, List.mem_map_of_mem _ hsc, s, hs2, hn⟩
    refine ⟨s', hn', ?_⟩
    rw [schedule, if_neg (by omega), if_neg hlen, if_neg (by simp [hany]), hok1]
    show (match getShiftPreferences (shiftConfs.map mandatoryPair)
        ((sortByDay cal.dayConfigurations).map mandatoryDayPair)
        (monthDates cal.year cal.month) with
      | Except.error e => Except.error e
      | Except.ok required => Except.ok (ScheduleOutput.mk r1 required
          (enumerateVars shiftConfs (sortByDay cal.dayConfigurations)))) = _
    rw [he2]

/-- Witness for the amended C4: a valid February 2021 calendar with no
overrides and the unrecognized name Funday in an unavailableShifts list. -/
theorem C4_unknown_weekday_amended_witness :
    ((1 ≤ exC4Cal.month ∧ exC4Cal.month ≤ 12)
      ∧ exC4Cal.dayConfigurations.length = daysInMonth exC4Cal.year exC4Cal.month
      ∧ (sortByDay exC4Cal.dayConfigurations).map DayConf.day
          = List.range' 1 (daysInMonth exC4Cal.year exC4Cal.month)
      ∧ (∀ dc ∈ exC4Cal.dayConfigurations, interList dc.wantedShifts dc.unwantedShifts = [])
      ∧ (∃ sc ∈ exC4ShiftConfs, ∃ s ∈ sc.wantedShifts ++ sc.unwantedShifts ++ sc.mandatoryShifts
          ++ sc.unavailableShifts, WEEK_DAY s = none))
    ∧ ∃ s, WEEK_DAY s = none ∧ schedule [] exC4ShiftConfs exC4Cal
        = .error (.unknownWeekday s) :=
  ⟨⟨by decide, by decide, by decide, by decide, by decide⟩,
    C4_unknown_weekday_amended [] exC4ShiftConfs exC4Cal (by decide) (by decide) (by decide)
      (by decide) (by decide)⟩

/-- C5: the claim says a staff member in both override lists of one day stays
in both resolved sets while the conflict is only warned about.  The code
instead crashes on such a day: the day-level warning at scheduler.py lines
252 to 254 formats with a named placeholder but positional arguments, so the
str.format call raises KeyError and no resolved sets are produced.  This
theorem evaluates the embedded code at the failing input: one day whose two
override lists both hold doctor 1. -/
theorem C5_day_conflict_crashes :
    getShiftPreferences [] [⟨[1], [1]⟩] [⟨1, 0⟩]
      = .error (.dayConflictFormatKeyError 1) := by decide

/-- C7: Resolved-table shape.  Under a valid calendar (dates numbered 1 to N
in order and one day configuration per date), the resolved table has exactly
the keys 1 to N and every per-day list is duplicate-free. -/
theorem C7_table_shape (shiftConfs : List ShiftConf2) (dayConfs : List DayConf2)
    (daysOfMonth : List Date) (ws : List Warning) (t : Table)
    (hdays : daysOfMonth.map Date.day = List.range' 1 daysOfMonth.length)
    (hlen : daysOfMonth.length = dayConfs.length)
    (hok : getShiftPreferences shiftConfs dayConfs daysOfMonth = .ok (ws, t)) :
    t.map Prod.fst = List.range' 1 daysOfMonth.length
      ∧ ∀ e ∈ t, e.2.1.Nodup ∧ e.2.2.Nodup := by
  obtain ⟨b1, b2, hagg, _, _⟩ := getShiftPreferences_ok_parts _ _ _ _ _ hok
  have hnd : (daysOfMonth.map Date.day).Nodup := by
    rw [hdays]; exact List.nodup_range' _ _
  have ht := getShiftPreferences_ok_table _ _ _ _ _ _ _ hagg hok
    (nodup_zip_map_fst _ _ _ hnd)
  subst ht
  constructor
  · have hfst : (daysOfMonth.zip dayConfs).map (fun q => q.1.day) = daysOfMonth.map Date.day := by
      rw [show (fun q : Date × DayConf2 => q.1.day) = Date.day ∘ Prod.fst from rfl,
        ← List.map_map, List.map_fst_zip _ _ (le_of_eq hlen)]
    rw [List.map_map]
    exact (hfst.trans hdays)
  · intro e he
    rcases List.mem_map.mp he with ⟨q, _, rfl⟩
    simp only [resolveOne]
    exact ⟨List.nodup_dedup _, List.nodup_dedup _⟩

/-- Witness for C7 at a concrete two-day calendar. -/
theorem C7_table_shape_witness :
    (exC7Days.map Date.day = List.range' 1 exC7Days.length
      ∧ exC7Days.length = exC7DayConfs.length
      ∧ getShiftPreferences exC7Confs exC7DayConfs exC7Days = .ok ([], exC7Table))
    ∧ (exC7Table.map Prod.fst = List.range' 1 exC7Days.length
      ∧ ∀ e ∈ exC7Table, e.2.1.Nodup ∧ e.2.2.Nodup) :=
  ⟨⟨by decide, by decide, by decide⟩,
    C7_table_shape exC7Confs exC7DayConfs exC7Days [] exC7Table (by decide) (by decide)
      (by decide)⟩

/-- C6: Weekday conflicts are reported, not excluded.  If a staff id appears
under one weekday in both recurring preference lists, the run's warning list
holds a weekday-conflict diagnostic naming that id and weekday, and the id
still appears in both weekday-aggregated bucket sets (the detection pass
never changes the buckets the resolution step reads). -/
theorem C6_weekday_conflict_reported (shiftConfs : List ShiftConf2) (dayConfs : List DayConf2)
    (daysOfMonth : List Date) (ws : List Warning) (t : Table) (b1 b2 : Buckets)
    (x : Nat) (w : Fin 7)
    (hagg : aggregateConfs shiftConfs emptyBuckets emptyBuckets = .ok (b1, b2))
    (hok : getShiftPreferences shiftConfs dayConfs daysOfMonth = .ok (ws, t))
    (h1 : ∃ sc ∈ shiftConfs, x = sc.doctorId ∧ ∃ s ∈ sc.key1Shifts, WEEK_DAY s = some w)
    (h2 : ∃ sc ∈ shiftConfs, x = sc.doctorId ∧ ∃ s ∈ sc.key2Shifts, WEEK_DAY s = some w) :
    (∃ ids, Warning.weekdayConflict ids w ∈ ws ∧ x ∈ ids) ∧ x ∈ b1 w ∧ x ∈ b2 w := by
  obtain ⟨b1', b2', hagg', hws, -⟩ := getShiftPreferences_ok_parts _ _ _ _ _ hok
  rw [hagg] at hagg'
  injection hagg' with h'
  rw [Prod.mk.injEq] at h'
  obtain ⟨rfl, rfl⟩ := h'
  have hmem := aggregateConfs_mem _ _ _ _ _ hagg x w
  have hb1 : x ∈ b1 w := hmem.1.mpr (Or.inr h1)
  have hb2 : x ∈ b2 w := hmem.2.mpr (Or.inr h2)
  rw [hws]
  exact ⟨weekdayWarnings_mem b1 b2 x w hb1 hb2, hb1, hb2⟩

/-- Witness for C6: doctor 9 lists Tuesday in both recurring categories; the
run emits the Tuesday conflict warning and keeps 9 in both buckets. -/
theorem C6_weekday_conflict_reported_witness :
    (aggregateConfs exC6Confs emptyBuckets emptyBuckets = .ok (exC6B, exC6B)
      ∧ getShiftPreferences exC6Confs [] [] = .ok ([.weekdayConflict [9] 1], [])
      ∧ (∃ sc ∈ exC6Confs, 9 = sc.doctorId ∧ ∃ s ∈ sc.key1Shifts, WEEK_DAY s = some 1)
      ∧ (∃ sc ∈ exC6Confs, 9 = sc.doctorId ∧ ∃ s ∈ sc.key2Shifts, WEEK_DAY s = some 1))
    ∧ ((∃ ids, Warning.weekdayConflict ids 1 ∈ [Warning.weekdayConflict [9] 1] ∧ 9 ∈ ids)
      ∧ 9 ∈ exC6B 1 ∧ 9 ∈ exC6B 1) :=
  ⟨⟨rfl, rfl, by decide, by decide⟩,
    C6_weekday_conflict_reported exC6Confs [] [] [.weekdayConflict [9] 1] [] exC6B exC6B 9 1
      rfl rfl (by decide) (by decide)⟩

/-- C8: Decision-variable identifier uniqueness.  The BoolVar name is a
function of the doctor id, the day number and the kind suffix, distinct
triples always give distinct names, and, with one shift configuration per
doctor and distinct day numbers, the variables created over the run all
carry pairwise distinct names. -/
theorem C8_var_names_unique (shiftConfs : List ShiftConf) (dayConfs : List DayConf)
    (hids : (shiftConfs.map ShiftConf.doctorId).Nodup)
    (hdays : (dayConfs.map DayConf.day).Nodup) :
    (∀ d1 n1 k1 d2 n2 k2, varName d1 n1 k1 = varName d2 n2 k2
      → d1 = d2 ∧ n1 = n2 ∧ k1 = k2)
    ∧ (createdVars shiftConfs dayConfs).Nodup := by
  refine ⟨fun d1 n1 k1 d2 n2 k2 h => varName_inj _ _ _ _ _ _ h, ?_⟩
  rw [createdVars, List.nodup_flatMap]
  constructor
  · intro sc _
    rw [List.nodup_flatMap]
    constructor
    · intro dc _
      by_cases hw : dc.isWorkingDay
      · rw [if_pos hw, varsFor]
        by_cases hcons : sc.doesConsultations
        · rw [if_pos hcons]
          refine List.nodup_cons.mpr ⟨fun hmem => ?_, List.nodup_cons.mpr ⟨by simp, List.nodup_nil⟩⟩
          have hk := (varName_inj _ _ _ _ _ _ (List.mem_singleton.mp hmem)).2.2
          exact absurd hk (by decide)
        · rw [if_neg hcons]
          exact List.nodup_cons.mpr ⟨by simp, List.nodup_nil⟩
      · rw [if_neg hw]
        exact List.nodup_nil
    · have hpw : List.Pairwise (fun a b : DayConf => a.day ≠ b.day) dayConfs :=
        List.pairwise_map.mp hdays
      refine hpw.imp ?_
      intro a b hne x hxa hxb
      obtain ⟨ka, hka⟩ := mem_ite_varsFor sc a x hxa
      obtain ⟨kb, hkb⟩ := mem_ite_varsFor sc b x hxb
      exact hne (varName_inj _ _ _ _ _ _ (hka.symm.trans hkb)).2.1
  · have hpw : List.Pairwise (fun a b : ShiftConf => a.doctorId ≠ b.doctorId) shiftConfs :=
      List.pairwise_map.mp hids
    refine hpw.imp ?_
    intro a b hne x hxa hxb
    obtain ⟨dca, -, ka, hka⟩ := mem_createdRow a dayConfs x hxa
    obtain ⟨dcb, -, kb, hkb⟩ := mem_createdRow b dayConfs x hxb
    exact hne (varName_inj _ _ _ _ _ _ (hka.symm.trans hkb)).1

/-- Witness for C8: doctors 1 and 12 over working days 1 and 23 (day numbers
chosen so that naive name collisions like doc 1 day 23 against doc 12 day 3
would be caught if they existed). -/
theorem C8_var_names_unique_witness :
    ((exC8Scs.map ShiftConf.doctorId).Nodup ∧ (exC8Dcs.map DayConf.day).Nodup)
    ∧ ((∀ d1 n1 k1 d2 n2 k2, varName d1 n1 k1 = varName d2 n2 k2
        → d1 = d2 ∧ n1 = n2 ∧ k1 = k2)
      ∧ (createdVars exC8Scs exC8Dcs).Nodup) :=
  ⟨⟨by decide, by decide⟩, C8_var_names_unique exC8Scs exC8Dcs (by decide) (by decide)⟩

/-- C9: Staff-record noninterference.  Two runs that differ only in the
doctors records produce identical results: schedule reads and logs the
doctors input but never consults it; the enumeration reads the doctor id and
the doesConsultations flag from the shift-configuration records. -/
theorem C9_doctors_noninterference (d1 d2 : List Doctor) (shiftConfs : List ShiftConf)
    (cal : CalendarInput) : schedule d1 shiftConfs cal = schedule d2 shiftConfs cal := rfl

/-- C10: the refactored entry point always fails.  main of src/src/main.py
calls scheduler.schedule with three positional arguments while scheduler.py
defines schedule with no parameters, so Python raises TypeError before any
scheduling computation starts, for every input. -/
theorem C10_main_type_error (doctors : List Doctor) (shiftConfs : List ShiftConf)
    (cal : CalendarInput) : mainRun doctors shiftConfs cal = .error .typeError := rfl

end Guardians
